import Mathlib

/-!
Verification of the BEAT-METHOD IDE-installer pipeline.

The JavaScript sources under `tools/cli/installers/lib/` are shallowly embedded
here.  Strings are modelled as Lean `String` (with most computation performed on
the underlying `List Char`), directory listings as lists of entry names, and
directories with file contents as association lists from file name to content.
Each definition mirrors the corresponding JavaScript function; the file and
line references are given in the doc comments.
-/

namespace BeatMethod

/-- Character-list view of a string, following the JS "sequence of code units"
reading of the string operations used by the installers. -/
abbrev Str := List Char

/-- Rebuild a `String` from a character list. -/
def strOfList (l : Str) : String := ⟨l⟩

/-- JS `String.prototype.startsWith`: prefix test on the character sequence. -/
def jsStartsWith (s : String) (pre : String) : Bool :=
  pre.data.isPrefixOf s.data

/-- JS `String.prototype.endsWith`: suffix test on the character sequence. -/
def jsEndsWith (s : String) (suf : String) : Bool :=
  suf.data.isSuffixOf s.data

/-- Substring occurrence on character lists (JS `String.prototype.includes`). -/
def containsSub (pat : Str) : Str → Bool
  | [] => pat.isEmpty
  | s@(_ :: rest) => pat.isPrefixOf s || containsSub pat rest

/-- JS `String.prototype.includes` on `String`. -/
def jsIncludes (s : String) (pat : String) : Bool :=
  containsSub pat.data s.data

/-- Replace the first occurrence of `pat` (as JS `String.prototype.replace`
with a string pattern does); leaves the string unchanged when `pat` does not
occur. -/
def replaceFirstAux (pat rep : Str) : Str → Str
  | [] => []
  | s@(c :: rest) =>
    if pat.isPrefixOf s then rep ++ s.drop pat.length
    else c :: replaceFirstAux pat rep rest

/-- JS `s.replace(pat, rep)` with a plain-string pattern. -/
def jsReplaceFirst (s pat rep : String) : String :=
  strOfList (replaceFirstAux pat.data rep.data s.data)

end BeatMethod

namespace BeatMethod

/-! ## Cleanup routines (C1, C8)

Each adapter's cleanup acts on the listing of one destination directory.  We
model a directory listing as the list of entry names that `fs.readdir`
returns; removal keeps exactly the entries the JS loop does not delete. -/

/-- `TraeSetup.cleanup` (trae.js lines 243-263): removes every entry of
`.trae/rules` that starts with `beat-` and ends with `.md`; all other entries
survive. -/
def traeCleanup (entries : List String) : List String :=
  entries.filter (fun f => !(jsStartsWith f "beat-" && jsEndsWith f ".md"))

/-- `CodexSetup.clearOldBeatFiles` (codex.js lines 167-187) and the identical
`ClineSetup.clearOldBeatFiles` (cline.js lines 173-193): removes every entry
(file or directory) whose name starts with `beat-`. -/
def clearOldBeatFiles (entries : List String) : List String :=
  entries.filter (fun f => !(jsStartsWith f "beat-"))

/-- `CursorSetup.cleanup` (cursor.js lines 20-28): removes the owned
`beat` subdirectory of `.cursor/rules` when present, nothing else.
`WindsurfSetup.cleanup` (windsurf.js lines 199-208) has the same shape on
`.windsurf/workflows`. -/
def cursorCleanup (entries : List String) : List String :=
  entries.filter (fun f => f ≠ "beat")

/-- `QwenSetup.cleanupOldConfig` (qwen.js lines 181-201): unconditionally
removes the three legacy entries `agents`, `beat-method` and `beatDir` from
`.qwen` when they exist. -/
def qwenCleanupOldConfig (entries : List String) : List String :=
  entries.filter (fun f => f ≠ "agents" && f ≠ "beat-method" && f ≠ "beatDir")

end BeatMethod

namespace BeatMethod

/-- Claim C1: for every destination state and every adapter, cleanup removes
only entries carrying the ownership marker (`beat-` prefix) or the owned
`beat` subdirectory, and preserves every unmarked entry.  This fails:
`QwenSetup.cleanupOldConfig` deletes the legacy `agents` directory, whose
name neither starts with `beat-` nor equals `beat`. -/
theorem qwen_cleanup_removes_unmarked_entry :
    "agents" ∈ ["agents", "notes.txt"] ∧
    "agents" ∉ qwenCleanupOldConfig ["agents", "notes.txt"] ∧
    jsStartsWith "agents" "beat-" = false ∧
    "agents" ≠ "beat" := by
  decide

/-- Claim C1 (amended): the per-entry cleanups are scoped as follows: trae
and codex/cline cleanups delete only `beat-`-prefixed entries and keep every
entry lacking that prefix; cursor/windsurf cleanup deletes only the owned
`beat` subdirectory; qwen's legacy cleanup deletes only the three fixed
names `agents`, `beat-method`, `beatDir`. -/
theorem cleanup_scoping (entries : List String) (e : String)
    (he : e ∈ entries) :
    (jsStartsWith e "beat-" = false → e ∈ traeCleanup entries) ∧
    (jsStartsWith e "beat-" = false → e ∈ clearOldBeatFiles entries) ∧
    (∀ f ∈ traeCleanup entries, f ∈ entries) ∧
    (∀ f ∈ clearOldBeatFiles entries, f ∈ entries) ∧
    (e ≠ "beat" → e ∈ cursorCleanup entries) ∧
    (e ≠ "agents" → e ≠ "beat-method" → e ≠ "beatDir" →
      e ∈ qwenCleanupOldConfig entries) := by
  refine ⟨?_, ?_, ?_, ?_, ?_, ?_⟩
  · intro h
    exact List.mem_filter.mpr ⟨he, by simp [h]⟩
  · intro h
    exact List.mem_filter.mpr ⟨he, by simp [h]⟩
  · intro f hf
    exact (List.mem_filter.mp hf).1
  · intro f hf
    exact (List.mem_filter.mp hf).1
  · intro h
    exact List.mem_filter.mpr ⟨he, by simp [h]⟩
  · intro h1 h2 h3
    exact List.mem_filter.mpr ⟨he, by simp [h1, h2, h3]⟩

/-- Witness for `cleanup_scoping` at a concrete directory listing. -/
theorem cleanup_scoping_witness :
    ("user.md" ∈ ["beat-x.md", "user.md"]) ∧
    "user.md" ∈ traeCleanup ["beat-x.md", "user.md"] := by
  refine ⟨by decide, ?_⟩
  exact (cleanup_scoping ["beat-x.md", "user.md"] "user.md" (by decide)).1
    (by decide)

end BeatMethod

namespace BeatMethod

/-! ## Artifact collection (C2, C4, C5)

`shared/beat-artifacts.js` scans the installed `beat/` tree.  We model a
kind directory (`agents/` or `tasks/`) as an optional list of files — `none`
when `fs.pathExists` is false — and the whole tree as the `core` module, a
list of named optional modules, and an optional standalone `agents/` area of
per-agent subdirectories. -/

/-- One file of a scanned directory: entry name and text content. -/
structure SrcFile where
  name : String
  content : String
  deriving DecidableEq, Repr

/-- The `agents/` and `tasks/` subdirectories of one module directory;
`none` models a missing directory (`fs.pathExists` false). -/
structure ModuleDir where
  agents : Option (List SrcFile)
  tasks : Option (List SrcFile)
  deriving DecidableEq, Repr

/-- The installed `beat/` tree as `beat-artifacts.js` reads it. -/
structure BeatTree where
  core : ModuleDir
  modules : List (String × ModuleDir)
  standalone : Option (List (String × List SrcFile))
  deriving DecidableEq, Repr

/-- A collected agent or task record, as pushed by `beat-artifacts.js`
(the `path` field is determined by tree position and is omitted). -/
structure BeatRec where
  name : String
  module : String
  deriving DecidableEq, Repr

/-- The filename-to-name step used everywhere: `file.replace('.md', '')`
removes the first occurrence of `.md`. -/
def beatRecName (file : String) : String := jsReplaceFirst file ".md" ""

/-- `getAgentsFromDir` (cursor.js companion `beat-artifacts.js` lines
431-464): keeps `.md` files, skips filenames containing `.customize.`,
skips contents containing `localskip="true"`. -/
def getAgentsFromDir (files : List SrcFile) (moduleName : String) :
    List BeatRec :=
  (files.filter (fun f =>
    jsEndsWith f.name ".md" &&
    !(jsIncludes f.name ".customize.") &&
    !(jsIncludes f.content "localskip=\x22true\x22"))).map
    (fun f => { name := beatRecName f.name, module := moduleName })

/-- `getTasksFromDir` (`beat-artifacts.js` lines 466-488): keeps `.md`
files; applies neither the `.customize.` nor the `localskip` check. -/
def getTasksFromDir (files : List SrcFile) (moduleName : String) :
    List BeatRec :=
  (files.filter (fun f => jsEndsWith f.name ".md")).map
    (fun f => { name := beatRecName f.name, module := moduleName })

/-- The standalone `beat/agents/{dir}/*.md` scan inside `getAgentsFromBeat`
(`beat-artifacts.js` lines 379-406): same three checks as
`getAgentsFromDir`, module fixed to `standalone`. -/
def getStandaloneAgents (dirs : List (String × List SrcFile)) :
    List BeatRec :=
  dirs.flatMap (fun d =>
    (d.2.filter (fun f =>
      jsEndsWith f.name ".md" &&
      !(jsIncludes f.name ".customize.") &&
      !(jsIncludes f.content "localskip=\x22true\x22"))).map
      (fun f => { name := beatRecName f.name, module := "standalone" }))

/-- `getAgentsFromBeat` (`beat-artifacts.js` lines 360-409): core agents if
the directory exists, then each selected module's agents if its directory
exists, then standalone agents.  The JS function contains no `throw`; a
missing directory is skipped, so the embedding is total and we expose the
(never used) error channel as `Except` to state claim C5. -/
def getAgentsFromBeat (tree : BeatTree) (selectedModules : List String) :
    Except String (List BeatRec) :=
  let core := match tree.core.agents with
    | some files => getAgentsFromDir files "core"
    | none => []
  let mods := selectedModules.flatMap (fun m =>
    match (tree.modules.lookup m).bind (·.agents) with
    | some files => getAgentsFromDir files m
    | none => [])
  let standalone := match tree.standalone with
    | some dirs => getStandaloneAgents dirs
    | none => []
  Except.ok (core ++ mods ++ standalone)

/-- `getTasksFromBeat` (`beat-artifacts.js` lines 411-429): core tasks then
selected module tasks; no standalone area, and again no error path. -/
def getTasksFromBeat (tree : BeatTree) (selectedModules : List String) :
    Except String (List BeatRec) :=
  let core := match tree.core.tasks with
    | some files => getTasksFromDir files "core"
    | none => []
  let mods := selectedModules.flatMap (fun m =>
    match (tree.modules.lookup m).bind (·.tasks) with
    | some files => getTasksFromDir files m
    | none => [])
  Except.ok (core ++ mods)

end BeatMethod

namespace BeatMethod

/-- Claim C4: both exclusion checks (filename containing `.customize.`,
content containing `localskip="true"`) are applied to every candidate file
of every kind.  This fails for tasks: `getTasksFromDir` keeps a task file
whose name contains `.customize.` and whose content contains the local-skip
marker. -/
theorem tasks_skip_no_exclusion_checks :
    getTasksFromDir
        [{ name := "a.customize.md", content := "localskip=\x22true\x22" }]
        "core" =
      [{ name := "a.customize", module := "core" }] ∧
    getAgentsFromDir
        [{ name := "a.customize.md", content := "localskip=\x22true\x22" }]
        "core" = [] := by
  decide

/-- Claim C4 (amended): agent candidate files (module directories and the
standalone area) are subject to both exclusion checks, while task candidate
files are filtered only by the `.md` extension: every `.md` task file is
kept regardless of the two markers. -/
theorem exclusion_checks_per_kind (files : List SrcFile) (m : String)
    (f : SrcFile) (hf : f ∈ files) :
    ((jsIncludes f.name ".customize." = true ∨
      jsIncludes f.content "localskip=\x22true\x22" = true) →
      ∀ g ∈ files.filter (fun g =>
          jsEndsWith g.name ".md" &&
          !(jsIncludes g.name ".customize.") &&
          !(jsIncludes g.content "localskip=\x22true\x22")), g ≠ f) ∧
    (jsEndsWith f.name ".md" = true →
      { name := beatRecName f.name, module := m } ∈ getTasksFromDir files m) ∧
    getAgentsFromDir files m =
      (files.filter (fun g =>
          jsEndsWith g.name ".md" &&
          !(jsIncludes g.name ".customize.") &&
          !(jsIncludes g.content "localskip=\x22true\x22"))).map
        (fun g => { name := beatRecName g.name, module := m }) := by
  refine ⟨?_, ?_, rfl⟩
  · intro hmark g hg hgf
    subst hgf
    have hp := (List.mem_filter.mp hg).2
    rcases hmark with h | h <;> simp [h] at hp
  · intro hmd
    exact List.mem_map.mpr
      ⟨f, List.mem_filter.mpr ⟨hf, by simp [hmd]⟩, rfl⟩

/-- Witness for `exclusion_checks_per_kind`: a `.customize.` agent file is
dropped while the same task file is kept. -/
theorem exclusion_checks_per_kind_witness :
    jsEndsWith "a.customize.md" ".md" = true ∧
    ({ name := "a.customize", module := "core" } : BeatRec) ∈
      getTasksFromDir [{ name := "a.customize.md", content := "c" }] "core" := by
  refine ⟨by decide, ?_⟩
  exact (exclusion_checks_per_kind
      [{ name := "a.customize.md", content := "c" }] "core"
      { name := "a.customize.md", content := "c" } (by decide)).2.1 (by decide)

/-- Claim C5: a missing `contentRoot` or missing `core/{kind}` directory is
a fatal "missing installation" error.  This fails: `getAgentsFromBeat`
guards the core scan with `fs.pathExists` and silently proceeds, returning
a normal (non-error) empty result for a tree with no directories at all. -/
theorem missing_core_is_silent :
    getAgentsFromBeat
        { core := { agents := none, tasks := none }, modules := [],
          standalone := none } [] = Except.ok [] ∧
    getTasksFromBeat
        { core := { agents := none, tasks := none }, modules := [],
          standalone := none } [] = Except.ok [] := by
  exact ⟨rfl, rfl⟩

/-- Claim C5 (amended): collection never signals an error; a missing core
kind directory and a missing selected-module directory alike contribute
zero artifacts, and the rest of the result is unchanged. -/
theorem missing_dirs_contribute_nothing (tree : BeatTree)
    (sel : List String) (m : String)
    (hcore : tree.core.agents = none)
    (hm : tree.modules.lookup m = none) :
    (∃ l, getAgentsFromBeat tree sel = Except.ok l) ∧
    getAgentsFromBeat tree (m :: sel) = getAgentsFromBeat tree sel := by
  constructor
  · exact ⟨_, rfl⟩
  · simp [getAgentsFromBeat, hcore, hm]

/-- Witness for `missing_dirs_contribute_nothing` on a tree whose only
content is a module not named by the selection. -/
theorem missing_dirs_contribute_nothing_witness :
    getAgentsFromBeat
        { core := { agents := none, tasks := none },
          modules := [("bmm",
            { agents := some [{ name := "pm.md", content := "x" }],
              tasks := none })],
          standalone := none } ["ghost"] =
      Except.ok [] := by
  have h := missing_dirs_contribute_nothing
    { core := { agents := none, tasks := none },
      modules := [("bmm",
        { agents := some [{ name := "pm.md", content := "x" }],
          tasks := none })],
      standalone := none } [] "ghost" (by decide) (by decide)
  exact h.2.trans (by rfl)

end BeatMethod

namespace BeatMethod

/-! ## Flat naming and artifact paths (C2, C6)

`AgentCommandGenerator.collectAgentArtifacts` (agent-command-generator.js
lines 21-47) gives each agent artifact the relative path
`path.join(agent.module, 'agents', agent.name + '.md')`; task artifacts get
`path.join(task.module, 'tasks', task.name + '.md')` (codex.js line 125,
cline.js line 125), and workflow artifacts use the `workflows` directory.
`flattenFilename` (codex.js lines 149-152, cline.js lines 149-152) prefixes
`beat-` and replaces every path separator with `-`. -/

/-- The artifact kinds that appear in relative paths. -/
inductive ArtifactKind
  | agents
  | tasks
  | tools
  | workflows
  deriving DecidableEq, Repr

/-- The directory segment for a kind, exactly as the JS joins it. -/
def ArtifactKind.dir : ArtifactKind → String
  | .agents => "agents"
  | .tasks => "tasks"
  | .tools => "tools"
  | .workflows => "workflows"

/-- The identity of an artifact: module, kind and name. -/
structure ArtifactId where
  module : String
  kind : ArtifactKind
  name : String
  deriving DecidableEq, Repr

/-- The relative path assigned at collection time, e.g.
`core/agents/dev.md` (path.join with `/`). -/
def artifactRelativePath (a : ArtifactId) : String :=
  a.module ++ "/" ++ a.kind.dir ++ "/" ++ a.name ++ ".md"

/-- The sanitizing map of `flattenFilename`:
`relativePath.replaceAll(/[\\/]/g, '-')`. -/
def sanitizeSeps (s : String) : String :=
  strOfList (s.data.map (fun c => if c = '/' ∨ c = '\\' then '-' else c))

/-- `flattenFilename` (codex.js lines 149-152 = cline.js lines 149-152). -/
def flattenFilename (relativePath : String) : String :=
  "beat-" ++ sanitizeSeps relativePath

/-- The flattened destination filename of an artifact under the codex/cline
flat-naming targets. -/
def flatName (a : ArtifactId) : String :=
  flattenFilename (artifactRelativePath a)

/-- The agent artifacts produced by
`AgentCommandGenerator.collectAgentArtifacts` for a tree, keeping only the
identity data (the launcher content is treated separately). -/
def collectAgentArtifactIds (tree : BeatTree) (selectedModules : List String) :
    List ArtifactId :=
  match getAgentsFromBeat tree selectedModules with
  | Except.ok agents =>
      agents.map (fun a => { module := a.module, kind := .agents, name := a.name })
  | Except.error _ => []

/-- The flattened file names written by
`CodexSetup.flattenAndWriteArtifacts` for the collected agent artifacts. -/
def codexAgentFileNames (tree : BeatTree) (selectedModules : List String) :
    List String :=
  (collectAgentArtifactIds tree selectedModules).map flatName

end BeatMethod

namespace BeatMethod

/-- The concrete tree of the end-to-end scenario of claim C2: a single file
`core/agents/dev.md` carrying an explicit title attribute. -/
def scenarioTree : BeatTree :=
  { core :=
      { agents := some
          [{ name := "dev.md",
             content := "<agent title=\x22Developer\x22>body</agent>" }],
        tasks := none },
    modules := [],
    standalone := none }

/-- Claim C2: a flat-naming adapter writes `beat-{module}-{kind}-{name}.ext`
and the scenario produces exactly one file named `beat-core-agent-dev.md`.
This fails: the relative path uses the plural directory segment `agents`,
so the single produced file is `beat-core-agents-dev.md`. -/
theorem flat_name_uses_plural_kind_segment :
    codexAgentFileNames scenarioTree [] = ["beat-core-agents-dev.md"] ∧
    "beat-core-agent-dev.md" ∉ codexAgentFileNames scenarioTree [] := by
  decide

/-- A string free of path separators (`/` and `\`); module and file names
produced by a directory scan satisfy this. -/
def sepFree (s : String) : Bool :=
  s.data.all (fun c => !(c = '/' || c = '\\'))

/-- String equality from equality of the character data. -/
theorem stringDataInj {s t : String} (h : s.data = t.data) : s = t := by
  cases s; cases t; exact congrArg String.mk h

/-- Sanitizing leaves a separator-free string unchanged. -/
theorem sanitizeSeps_sepFree {s : String} (h : sepFree s = true) :
    sanitizeSeps s = s := by
  apply stringDataInj
  show s.data.map _ = s.data
  have hAll := List.all_eq_true.mp h
  calc s.data.map (fun c => if c = '/' ∨ c = '\\' then '-' else c)
      = s.data.map id := by
        apply List.map_congr_left
        intro c hc
        have := hAll c hc
        simp only [Bool.not_eq_true', Bool.or_eq_false_iff,
          decide_eq_false_iff_not] at this
        simp [this.1, this.2]
    _ = s.data := List.map_id s.data

/-- Every kind directory segment is separator-free and dash-free. -/
theorem kindDir_clean (k : ArtifactKind) :
    sepFree k.dir = true ∧ '-' ∉ k.dir.data := by
  cases k <;> exact ⟨by decide, by decide⟩

/-- Claim C2 (amended), first half: the flat filename of an artifact with
separator-free module and name is
`beat-{module}-{kindDir}-{name}.md` where `kindDir` is the plural directory
segment of the kind (`agents`, `tasks`, `tools`, `workflows`). -/
theorem flatName_shape (a : ArtifactId) (hm : sepFree a.module = true)
    (hn : sepFree a.name = true) :
    flatName a =
      "beat-" ++ a.module ++ "-" ++ a.kind.dir ++ "-" ++ a.name ++ ".md" := by
  apply stringDataInj
  have hmd := congrArg String.data (sanitizeSeps_sepFree hm)
  have hnd := congrArg String.data (sanitizeSeps_sepFree hn)
  have hkd := congrArg String.data (sanitizeSeps_sepFree (kindDir_clean a.kind).1)
  simp only [sanitizeSeps, strOfList] at hmd hnd hkd
  simp [flatName, flattenFilename, artifactRelativePath, sanitizeSeps,
    strOfList, String.data_append, List.map_append, hmd, hnd, hkd]

/-- Witness for `flatName_shape` and the scenario of claim C2 (amended):
the single collected artifact of `core/agents/dev.md` is written to the
flat filename `beat-core-agents-dev.md`. -/
theorem flatName_shape_witness :
    sepFree "core" = true ∧
    flatName { module := "core", kind := .agents, name := "dev" } =
      "beat-" ++ "core" ++ "-" ++ ArtifactKind.dir .agents ++ "-" ++
        "dev" ++ ".md" ∧
    codexAgentFileNames scenarioTree [] = ["beat-core-agents-dev.md"] := by
  refine ⟨by decide, ?_, by decide⟩
  exact flatName_shape { module := "core", kind := .agents, name := "dev" }
    (by decide) (by decide)

end BeatMethod

namespace BeatMethod

/-! ## Injectivity of path construction (C6) -/

/-- Splitting at a separator element absent from both left parts is
unambiguous. -/
theorem append_sep_cancel {α : Type} (c : α) :
    ∀ {m1 m2 r1 r2 : List α}, c ∉ m1 → c ∉ m2 →
      m1 ++ c :: r1 = m2 ++ c :: r2 → m1 = m2 ∧ r1 = r2 := by
  intro m1
  induction m1 with
  | nil =>
    intro m2 r1 r2 _ h2 heq
    cases m2 with
    | nil => simpa using heq
    | cons x xs =>
      simp only [List.nil_append, List.cons_append, List.cons_eq_cons] at heq
      simp only [List.mem_cons, not_or] at h2
      exact absurd heq.1 h2.1
  | cons x xs ih =>
    intro m2 r1 r2 h1 h2 heq
    cases m2 with
    | nil =>
      simp only [List.nil_append, List.cons_append, List.cons_eq_cons] at heq
      simp only [List.mem_cons, not_or] at h1
      exact absurd heq.1.symm h1.1
    | cons y ys =>
      simp only [List.cons_append, List.cons_eq_cons] at heq
      have h1' : c ∉ xs := fun h => h1 (List.mem_cons_of_mem x h)
      have h2' : c ∉ ys := fun h => h2 (List.mem_cons_of_mem y h)
      obtain ⟨hm, hr⟩ := ih h1' h2' heq.2
      exact ⟨by rw [heq.1, hm], hr⟩

/-- The kind is recoverable from its directory segment. -/
theorem kindDir_inj {k1 k2 : ArtifactKind} (h : k1.dir = k2.dir) :
    k1 = k2 := by
  cases k1 <;> cases k2 <;> first | rfl | exact absurd h (by decide)

/-- Claim C6: the path construction is injective on artifact identity for
both naming strategies.  This fails for the flat strategy: a hyphen in a
module name makes the boundaries ambiguous, so two artifacts differing in
module, kind and name can flatten to the same filename. -/
theorem flatName_not_injective :
    flatName { module := "a", kind := .agents, name := "tasks-b" } =
      flatName { module := "a-agents", kind := .tasks, name := "b" } ∧
    ({ module := "a", kind := .agents, name := "tasks-b" } : ArtifactId) ≠
      { module := "a-agents", kind := .tasks, name := "b" } := by
  decide

/-- A separator-free string contains no `/`. -/
theorem sepFree_no_slash {s : String} (h : sepFree s = true) :
    '/' ∉ s.data := by
  intro hc
  have := List.all_eq_true.mp h '/' hc
  simp at this

/-- The nested destination path of an artifact, e.g. qwen.js line 71 and
cursor.js line 82:
`path.join(destRoot, artifact.module, kindDir, artifact.name + ext)`. -/
def nestedTargetPath (root : String) (a : ArtifactId) (ext : String) :
    String :=
  root ++ "/" ++ a.module ++ "/" ++ a.kind.dir ++ "/" ++ a.name ++ ext

/-- Claim C6 (amended): the flat path construction is injective on
artifacts whose modules are separator-free and hyphen-free and whose names
are separator-free (hyphens in names remain allowed); the nested path
construction is injective under a fixed root and extension on artifacts
whose modules and names are separator-free. -/
theorem path_construction_injective :
    (∀ a1 a2 : ArtifactId,
      sepFree a1.module = true → '-' ∉ a1.module.data →
      sepFree a2.module = true → '-' ∉ a2.module.data →
      sepFree a1.name = true → sepFree a2.name = true →
      flatName a1 = flatName a2 → a1 = a2) ∧
    (∀ (root ext : String) (a1 a2 : ArtifactId),
      sepFree a1.module = true → sepFree a2.module = true →
      sepFree a1.name = true → sepFree a2.name = true →
      nestedTargetPath root a1 ext = nestedTargetPath root a2 ext →
      a1 = a2) := by
  constructor
  · intro a1 a2 hm1 hm1d hm2 hm2d hn1 hn2 heq
    rw [flatName_shape a1 hm1 hn1, flatName_shape a2 hm2 hn2] at heq
    have hdata := congrArg String.data heq
    simp only [String.data_append, List.append_assoc] at hdata
    have hdata2 := List.append_cancel_left hdata
    have step1 := append_sep_cancel '-' hm1d hm2d (by
      simpa using hdata2)
    obtain ⟨hmod, hrest⟩ := step1
    have hk1 := (kindDir_clean a1.kind).2
    have hk2 := (kindDir_clean a2.kind).2
    have step2 := append_sep_cancel '-' hk1 hk2 (by
      simpa using hrest)
    obtain ⟨hkind, hname⟩ := step2
    have hnm : a1.name.data = a2.name.data :=
      List.append_cancel_right hname
    cases a1; cases a2
    simp_all only [ArtifactId.mk.injEq]
    exact ⟨stringDataInj hmod, kindDir_inj (stringDataInj hkind),
      stringDataInj hnm⟩
  · intro root ext a1 a2 hm1 hm2 hn1 hn2 heq
    have hdata := congrArg String.data heq
    simp only [nestedTargetPath, String.data_append, List.append_assoc] at hdata
    have hdata2 := List.append_cancel_left hdata
    have step1 := append_sep_cancel '/' (sepFree_no_slash hm1)
      (sepFree_no_slash hm2) (by simpa using hdata2)
    obtain ⟨hmod, hrest⟩ := step1
    have hk1 := sepFree_no_slash (kindDir_clean a1.kind).1
    have hk2 := sepFree_no_slash (kindDir_clean a2.kind).1
    have step2 := append_sep_cancel '/' hk1 hk2 (by simpa using hrest)
    obtain ⟨hkind, hname⟩ := step2
    have hnm : a1.name.data = a2.name.data :=
      List.append_cancel_right hname
    cases a1; cases a2
    simp_all only [ArtifactId.mk.injEq]
    exact ⟨stringDataInj hmod, kindDir_inj (stringDataInj hkind),
      stringDataInj hnm⟩

/-- Witness for `path_construction_injective` at two concrete artifacts
mapping to the same flat filename. -/
theorem path_construction_injective_witness :
    ({ module := "bmm", kind := .agents, name := "dev-story" } : ArtifactId) =
      { module := "bmm", kind := .agents, name := "dev-story" } := by
  exact path_construction_injective.1
    { module := "bmm", kind := .agents, name := "dev-story" }
    { module := "bmm", kind := .agents, name := "dev-story" }
    (by decide) (by decide) (by decide) (by decide) (by decide) (by decide)
    rfl

end BeatMethod

namespace BeatMethod

/-! ## Cleanup-then-write idempotence (C8)

The destination directory is modelled as an association list from file name
to content.  `CodexSetup.setup` (codex.js lines 30-35) runs
`clearOldBeatFiles` and then `flattenAndWriteArtifacts` over the collected
artifact list; cline.js lines 36-42 are identical in structure. -/

/-- A collected artifact as consumed by `flattenAndWriteArtifacts`:
relative path and rendered content. -/
structure FlatArtifact where
  relativePath : String
  content : String
  deriving DecidableEq, Repr

/-- A destination directory: file names with their contents. -/
abbrev DirFiles := List (String × String)

/-- `clearOldBeatFiles` acting on a directory with contents (codex.js lines
167-187): every `beat-`-prefixed entry is removed. -/
def clearOldBeatFilesFs (d : DirFiles) : DirFiles :=
  d.filter (fun e => !(jsStartsWith e.1 "beat-"))

/-- `fs.writeFile`: replace the content at `name` if the entry exists,
otherwise append a new entry. -/
def writeFileFs (d : DirFiles) (name content : String) : DirFiles :=
  if d.any (fun e => e.1 = name) then
    d.map (fun e => if e.1 = name then (name, content) else e)
  else d ++ [(name, content)]

/-- `flattenAndWriteArtifacts` (codex.js lines 154-165): writes each
artifact to its flattened filename, in order. -/
def flattenAndWriteArtifacts (arts : List FlatArtifact) (d : DirFiles) :
    DirFiles :=
  arts.foldl
    (fun acc a => writeFileFs acc (flattenFilename a.relativePath) a.content) d

/-- The cleanup-then-render-then-write sequence of `CodexSetup.setup`
(codex.js lines 30-35) on a given destination directory. -/
def codexInstall (arts : List FlatArtifact) (d : DirFiles) : DirFiles :=
  flattenAndWriteArtifacts arts (clearOldBeatFilesFs d)

/-- Every flattened filename carries the ownership marker. -/
theorem flattenFilename_marker (r : String) :
    jsStartsWith (flattenFilename r) "beat-" = true := by
  simp only [jsStartsWith, flattenFilename, String.data_append]
  exact List.isPrefixOf_iff_prefix.mpr (List.prefix_append _ _)

/-- Overwriting the entry at a marked name is invisible after clearing. -/
theorem clear_map_overwrite (n c : String)
    (hn : jsStartsWith n "beat-" = true) :
    ∀ d : DirFiles,
      clearOldBeatFilesFs (d.map (fun e => if e.1 = n then (n, c) else e)) =
        clearOldBeatFilesFs d := by
  intro d
  induction d with
  | nil => rfl
  | cons e rest ih =>
    by_cases he : e.1 = n
    · have he2 : jsStartsWith e.1 "beat-" = true := he ▸ hn
      simp only [List.map_cons, he, if_true, clearOldBeatFilesFs,
        List.filter_cons, hn, he2, Bool.not_true] at ih ⊢
      simpa using ih
    · simp only [List.map_cons, he, if_false, clearOldBeatFilesFs,
        List.filter_cons] at ih ⊢
      cases hkeep : !(jsStartsWith e.1 "beat-") <;> simpa [hkeep] using ih

/-- Writing a marked file does not change the unmarked remainder. -/
theorem clear_writeFileFs (d : DirFiles) (n c : String)
    (hn : jsStartsWith n "beat-" = true) :
    clearOldBeatFilesFs (writeFileFs d n c) = clearOldBeatFilesFs d := by
  unfold writeFileFs
  by_cases hany : d.any (fun e => e.1 = n)
  · simp only [hany, if_true]
    exact clear_map_overwrite n c hn d
  · simp only [hany, if_false, clearOldBeatFilesFs, List.filter_append]
    simp [hn]

/-- Clearing after a batch of marked writes is the same as clearing
before them. -/
theorem clear_flattenAndWrite (arts : List FlatArtifact) :
    ∀ d, clearOldBeatFilesFs (flattenAndWriteArtifacts arts d) =
      clearOldBeatFilesFs d := by
  induction arts with
  | nil => intro d; rfl
  | cons a rest ih =>
    intro d
    show clearOldBeatFilesFs (flattenAndWriteArtifacts rest _) = _
    rw [ih, clear_writeFileFs _ _ _ (flattenFilename_marker a.relativePath)]

/-- Clearing is idempotent. -/
theorem clear_idem (d : DirFiles) :
    clearOldBeatFilesFs (clearOldBeatFilesFs d) = clearOldBeatFilesFs d := by
  simp [clearOldBeatFilesFs, List.filter_filter]

/-- Claim C8: executing the cleanup-then-render-then-write sequence twice
leaves exactly the directory contents of executing it once, for every
artifact list and every starting directory. -/
theorem codexInstall_idempotent (arts : List FlatArtifact) (d : DirFiles) :
    codexInstall arts (codexInstall arts d) = codexInstall arts d := by
  unfold codexInstall
  rw [clear_flattenAndWrite, clear_idem]

end BeatMethod

namespace BeatMethod

/-! ## Operation ordering inside setup (C9)

Each adapter's `setup` issues its filesystem operations in a fixed textual
order; we record that order as a trace of events.  Collection
(`collectAgentArtifacts` / `collectClaudeArtifacts` / the shared getters)
is one `collectEv`; each removal performed by cleanup is a `deleteEv`; each
output file write is a `writeEv`. -/

/-- One setup-relevant filesystem event. -/
inductive FsEvent
  | collectEv
  | deleteEv (p : String)
  | writeEv (p : String)
  deriving DecidableEq, Repr

/-- `CursorSetup.setup` (cursor.js lines 36-51): `cleanup` (delete the
`beat` rules directory when present, line 40) runs before collection
(line 51), which runs before the writes. -/
def cursorSetupTrace (projectDir : String) (beatDirExists : Bool)
    (writePaths : List String) : List FsEvent :=
  (if beatDirExists
    then [FsEvent.deleteEv (projectDir ++ "/.cursor/rules/beat")] else []) ++
  [FsEvent.collectEv] ++ writePaths.map FsEvent.writeEv

/-- `TraeSetup.setup` (trae.js lines 22-88): cleanup (line 32, removing
each marked entry of `.trae/rules`) precedes collection (line 36) and the
writes. -/
def traeSetupTrace (projectDir : String) (oldEntries : List String)
    (writePaths : List String) : List FsEvent :=
  ((oldEntries.filter
      (fun f => jsStartsWith f "beat-" && jsEndsWith f ".md")).map
    (fun f => FsEvent.deleteEv (projectDir ++ "/.trae/rules/" ++ f))) ++
  [FsEvent.collectEv] ++ writePaths.map FsEvent.writeEv

/-- `CodexSetup.setup` (codex.js lines 30-35): collection (line 30) runs
first, then `clearOldBeatFiles` (line 34), then the writes (line 35). -/
def codexSetupTrace (destDir : String) (oldEntries : List String)
    (writePaths : List String) : List FsEvent :=
  [FsEvent.collectEv] ++
  ((oldEntries.filter (fun f => jsStartsWith f "beat-")).map
    (fun f => FsEvent.deleteEv (destDir ++ "/" ++ f))) ++
  writePaths.map FsEvent.writeEv

/-- `ClineSetup.setup` (cline.js lines 26-42): `clearOldBeatFiles`
(line 36) precedes collection (line 39) and the writes (line 42). -/
def clineSetupTrace (destDir : String) (oldEntries : List String)
    (writePaths : List String) : List FsEvent :=
  ((oldEntries.filter (fun f => jsStartsWith f "beat-")).map
    (fun f => FsEvent.deleteEv (destDir ++ "/" ++ f))) ++
  [FsEvent.collectEv] ++ writePaths.map FsEvent.writeEv

/-- Whether an event is a collection. -/
def FsEvent.isCollect : FsEvent → Bool
  | .collectEv => true
  | _ => false

/-- Whether an event is a deletion. -/
def FsEvent.isDelete : FsEvent → Bool
  | .deleteEv _ => true
  | _ => false

/-- Every collection event precedes every deletion event: no collect event
occurs after a delete event. -/
def collectBeforeCleanup : List FsEvent → Bool
  | [] => true
  | FsEvent.deleteEv _ :: rest =>
    rest.all (fun e => !e.isCollect) && collectBeforeCleanup rest
  | _ :: rest => collectBeforeCleanup rest

/-- Every deletion event precedes every write event: no delete event
occurs after a write event (in particular never after a write to the same
path). -/
def cleanupBeforeWrites : List FsEvent → Bool
  | [] => true
  | FsEvent.writeEv _ :: rest =>
    rest.all (fun e => !e.isDelete) && cleanupBeforeWrites rest
  | _ :: rest => cleanupBeforeWrites rest

end BeatMethod

namespace BeatMethod

/-- Claim C9: in every adapter's install sequence, collection completes
before cleanup begins.  This fails for cursor (and trae/cline): cursor.js
runs `cleanup` at line 40 and only then collects at line 51. -/
theorem cursor_cleanup_precedes_collection :
    collectBeforeCleanup (cursorSetupTrace "proj" true ["a.mdc"]) = false ∧
    cursorSetupTrace "proj" true ["a.mdc"] =
      [FsEvent.deleteEv "proj/.cursor/rules/beat", FsEvent.collectEv,
       FsEvent.writeEv "a.mdc"] := by
  decide

/-- A trace with no collect event satisfies `collectBeforeCleanup`. -/
theorem collectBeforeCleanup_of_no_collect :
    ∀ t : List FsEvent, t.all (fun e => !e.isCollect) = true →
      collectBeforeCleanup t = true := by
  intro t
  induction t with
  | nil => intro _; rfl
  | cons e rest ih =>
    intro h
    rw [List.all_cons, Bool.and_eq_true] at h
    obtain ⟨h1, h2⟩ := h
    cases e with
    | deleteEv p => simpa [collectBeforeCleanup, h2] using ih h2
    | collectEv => simp [FsEvent.isCollect] at h1
    | writeEv p => simpa [collectBeforeCleanup] using ih h2

/-- A trace of delete and collect events followed by writes satisfies
`cleanupBeforeWrites`, because only write heads impose a condition and all
writes come last. -/
theorem cleanupBeforeWrites_writes_only (ps : List String) :
    cleanupBeforeWrites (ps.map FsEvent.writeEv) = true := by
  induction ps with
  | nil => rfl
  | cons p rest ih =>
    simp only [List.map_cons, cleanupBeforeWrites, Bool.and_eq_true, ih,
      and_true]
    exact List.all_eq_true.mpr (by
      intro e he
      rcases List.mem_map.mp he with ⟨q, _, rfl⟩
      rfl)

/-- `cleanupBeforeWrites` only inspects the suffix after non-write heads. -/
theorem cleanupBeforeWrites_append_of_no_write :
    ∀ (l1 l2 : List FsEvent), l1.all (fun e => e.isDelete || e.isCollect) = true →
      cleanupBeforeWrites (l1 ++ l2) = cleanupBeforeWrites l2 := by
  intro l1 l2
  induction l1 with
  | nil => intro _; rfl
  | cons e rest ih =>
    intro h
    rw [List.all_cons, Bool.and_eq_true] at h
    obtain ⟨h1, h2⟩ := h
    cases e with
    | deleteEv p => simpa [cleanupBeforeWrites] using ih h2
    | collectEv => simpa [cleanupBeforeWrites] using ih h2
    | writeEv p => simp [FsEvent.isDelete, FsEvent.isCollect] at h1

/-- Claim C9 (amended): in every embedded adapter trace the cleanup
deletions all precede the first write (hence no delete is issued after a
write to any path), and codex — alone among these adapters — collects
before cleaning up; cursor, trae and cline run cleanup before
collection. -/
theorem setup_ordering (projectDir destDir : String) (b : Bool)
    (oldEntries writePaths : List String) :
    cleanupBeforeWrites (cursorSetupTrace projectDir b writePaths) = true ∧
    cleanupBeforeWrites (traeSetupTrace projectDir oldEntries writePaths) = true ∧
    cleanupBeforeWrites (codexSetupTrace destDir oldEntries writePaths) = true ∧
    cleanupBeforeWrites (clineSetupTrace destDir oldEntries writePaths) = true ∧
    collectBeforeCleanup (codexSetupTrace destDir oldEntries writePaths) = true := by
  have hdel : ∀ (l : List FsEvent), (∀ e ∈ l, e.isDelete = true) →
      l.all (fun e => e.isDelete || e.isCollect) = true := by
    intro l hs
    exact List.all_eq_true.mpr (by
      intro e he
      simp [hs e he])
  refine ⟨?_, ?_, ?_, ?_, ?_⟩
  · rw [cursorSetupTrace, List.append_assoc,
      cleanupBeforeWrites_append_of_no_write _ _ (by
        cases b <;> simp [FsEvent.isDelete]),
      cleanupBeforeWrites_append_of_no_write [FsEvent.collectEv] _ (by decide)]
    exact cleanupBeforeWrites_writes_only writePaths
  · rw [traeSetupTrace, List.append_assoc,
      cleanupBeforeWrites_append_of_no_write _ _ (hdel _ (by
        intro e he
        rcases List.mem_map.mp he with ⟨q, _, rfl⟩
        rfl)),
      cleanupBeforeWrites_append_of_no_write [FsEvent.collectEv] _ (by decide)]
    exact cleanupBeforeWrites_writes_only writePaths
  · rw [codexSetupTrace, List.append_assoc,
      cleanupBeforeWrites_append_of_no_write [FsEvent.collectEv] _ (by decide),
      cleanupBeforeWrites_append_of_no_write _ _ (hdel _ (by
        intro e he
        rcases List.mem_map.mp he with ⟨q, _, rfl⟩
        rfl))]
    exact cleanupBeforeWrites_writes_only writePaths
  · rw [clineSetupTrace, List.append_assoc,
      cleanupBeforeWrites_append_of_no_write _ _ (hdel _ (by
        intro e he
        rcases List.mem_map.mp he with ⟨q, _, rfl⟩
        rfl)),
      cleanupBeforeWrites_append_of_no_write [FsEvent.collectEv] _ (by decide)]
    exact cleanupBeforeWrites_writes_only writePaths
  · have hcons : ∀ t : List FsEvent,
        collectBeforeCleanup (FsEvent.collectEv :: t) =
          collectBeforeCleanup t := fun t => rfl
    rw [codexSetupTrace, List.append_assoc, List.singleton_append, hcons]
    apply collectBeforeCleanup_of_no_collect
    refine List.all_eq_true.mpr ?_
    intro e he
    rcases List.mem_append.mp he with h | h
    · rcases List.mem_map.mp h with ⟨q, _, rfl⟩
      rfl
    · rcases List.mem_map.mp h with ⟨q, _, rfl⟩
      rfl

/-- Witness for `setup_ordering` at concrete directories and listings. -/
theorem setup_ordering_witness :
    cleanupBeforeWrites
      (cursorSetupTrace "proj" true ["proj/.cursor/rules/beat/core/agents/dev.mdc"]) =
      true := by
  exact (setup_ordering "proj" "dest" true ["beat-old.md", "user.md"]
    ["proj/.cursor/rules/beat/core/agents/dev.mdc"]).1

end BeatMethod

namespace BeatMethod

/-! ## IDE config persistence (C10)

`IdeConfigManager.saveIdeConfig` (ide-config-manager.js lines 37-74).  The
previously stored config, as `loadIdeConfig` returns it, is `none` when the
file is absent or unreadable; an existing YAML document may or may not
carry a `configured_date` field. -/

/-- The fields of a previously loaded IDE config relevant to saving. -/
structure LoadedIdeConfig where
  configured_date : Option String
  deriving DecidableEq, Repr

/-- The document written by `saveIdeConfig` (ide-config-manager.js lines
57-62): the opaque `configuration` object is modelled as a key-value
list. -/
structure SavedIdeConfig where
  ide : String
  configured_date : String
  last_updated : String
  configuration : List (String × String)
  deriving DecidableEq, Repr

/-- `saveIdeConfig` (ide-config-manager.js lines 37-74).  `existing` is the
result of `loadIdeConfig` for the target path (`none`: no readable file);
`now` stands for `new Date().toISOString()`; a `none` configuration models
the JS `null`/`undefined` replaced by `{}` via `configuration || {}`. -/
def saveIdeConfig (existing : Option LoadedIdeConfig) (ideName : String)
    (configuration : Option (List (String × String))) (now : String) :
    SavedIdeConfig :=
  let configuredDate :=
    match existing with
    | some e =>
      match e.configured_date with
      | some d => d
      | none => now
    | none => now
  { ide := ideName,
    configured_date := configuredDate,
    last_updated := now,
    configuration := configuration.getD [] }

/-- Claim C10: re-saving preserves `configured_date` when a readable config
with that field exists, sets `last_updated` to the save time, and replaces
`configuration` (with `{}` for a null value). -/
theorem saveIdeConfig_preserves_configured_date
    (e : LoadedIdeConfig) (ideName d now : String)
    (cfg : Option (List (String × String)))
    (hd : e.configured_date = some d) :
    (saveIdeConfig (some e) ideName cfg now).configured_date = d ∧
    (saveIdeConfig (some e) ideName cfg now).last_updated = now ∧
    (saveIdeConfig (some e) ideName cfg now).configuration = cfg.getD [] ∧
    (saveIdeConfig (some e) ideName cfg now).ide = ideName := by
  refine ⟨?_, rfl, rfl, rfl⟩
  simp [saveIdeConfig, hd]

/-- Witness for `saveIdeConfig_preserves_configured_date` at a concrete
re-save. -/
theorem saveIdeConfig_preserves_configured_date_witness :
    (saveIdeConfig (some { configured_date := some "2024-01-01T00:00:00Z" })
        "cursor" none "2025-06-01T12:00:00Z").configured_date =
      "2024-01-01T00:00:00Z" := by
  exact (saveIdeConfig_preserves_configured_date
    { configured_date := some "2024-01-01T00:00:00Z" }
    "cursor" "2024-01-01T00:00:00Z" "2025-06-01T12:00:00Z" none rfl).1

end BeatMethod

namespace BeatMethod

/-! ## Title extraction and fallback (C3)

The adapters probe `rawContent` with small regexes such as
`/title="([^"]+)"/` and `/name="([^"]+)"/` (first match, greedy
one-or-more non-quote capture) and fall back to either
`this.formatTitle(name)` (trae.js lines 233-238, auggie, iflow, qwen's
unused helper) or the raw `metadata.name` (cursor.js lines 283-308,
qwen.js lines 253-273). -/

/-- First match of the pattern `key([^\x22]+)\x22` — `key` is the literal
prefix of the regex ending in its opening quote, the capture is one or
more non-quote characters, closed by a quote.  The scan advances one
character on failure, as a JS regex does. -/
def scanCapture (key : Str) : Str → Option Str
  | [] => none
  | s@(_ :: rest) =>
    if key.isPrefixOf s then
      let after := s.drop key.length
      let cap := after.takeWhile (fun c => c ≠ '\x22')
      match after.drop cap.length with
      | '\x22' :: _ => if cap.isEmpty then scanCapture key rest else some cap
      | _ => scanCapture key rest
    else scanCapture key rest

/-- JS whitespace class `\s`, restricted to the ASCII characters that can
occur in the processed markdown sources. -/
def jsWs (c : Char) : Bool :=
  c = ' ' || c = '\t' || c = '\n' || c = '\r' || c = '\x0b' || c = '\x0c'

/-- First match of `key\s*\x22([^\x22]+)\x22` (the `description:` and
`name:` probes): after `key`, skip the maximal whitespace run, require the
opening quote, then capture as in `scanCapture`. -/
def scanCaptureWs (key : Str) : Str → Option Str
  | [] => none
  | s@(_ :: rest) =>
    if key.isPrefixOf s then
      let after := (s.drop key.length).dropWhile jsWs
      match after with
      | '\x22' :: afterQuote =>
        let cap := afterQuote.takeWhile (fun c => c ≠ '\x22')
        match afterQuote.drop cap.length with
        | '\x22' :: _ =>
          if cap.isEmpty then scanCaptureWs key rest else some cap
        | _ => scanCaptureWs key rest
      | _ => scanCaptureWs key rest
    else scanCaptureWs key rest

/-- JS `name.split('-')`: split at every separator, keeping empty parts. -/
def splitOnCharAux (c : Char) : Str → Str → List Str
  | [], acc => [acc.reverse]
  | x :: xs, acc =>
    if x = c then acc.reverse :: splitOnCharAux c xs []
    else splitOnCharAux c xs (x :: acc)

/-- Split a character list at a separator character. -/
def splitOnChar (c : Char) (l : Str) : List Str :=
  splitOnCharAux c l []

/-- JS `word.charAt(0).toUpperCase() + word.slice(1)` (ASCII upper-casing;
the artifact names in question are ASCII). -/
def capitalizeWord : Str → Str
  | [] => []
  | c :: rest => c.toUpper :: rest

/-- JS `parts.join(' ')`. -/
def joinSpace : List Str → Str
  | [] => []
  | [w] => w
  | w :: ws => w ++ ' ' :: joinSpace ws

/-- `TraeSetup.formatTitle` (trae.js lines 233-238):
`name.split('-').map(w => w.charAt(0).toUpperCase() + w.slice(1)).join(' ')`. -/
def formatTitle (name : String) : String :=
  strOfList (joinSpace ((splitOnChar '-' name.data).map capitalizeWord))

/-- `TraeSetup.createTaskRule`'s title choice (trae.js lines 145-148):
the `name="…"` capture when the regex matches, otherwise
`this.formatTitle(task.name)`. -/
def traeTaskTitle (content name : String) : String :=
  match scanCapture "name=\x22".data content.data with
  | some t => strOfList t
  | none => formatTitle name

/-- JS `String.prototype.toUpperCase` (ASCII range). -/
def jsToUpperCase (s : String) : String :=
  strOfList (s.data.map Char.toUpper)

/-- The description computed by `CursorSetup.processContent` (cursor.js
lines 274-308): an if-chain on content tags, each branch extracting a
title with the raw `metadata.name` as fallback. -/
def cursorDescription (content module metaName : String) : String :=
  let up := jsToUpperCase module
  if jsIncludes content "<agent" then
    let t := match scanCapture "title=\x22".data content.data with
      | some t => strOfList t
      | none => metaName
    "BEAT " ++ up ++ " Agent: " ++ t
  else if jsIncludes content "<task" then
    let t := match scanCapture "name=\x22".data content.data with
      | some t => strOfList t
      | none => metaName
    "BEAT " ++ up ++ " Task: " ++ t
  else if jsIncludes content "<tool" then
    let t := match scanCapture "name=\x22".data content.data with
      | some t => strOfList t
      | none => metaName
    "BEAT " ++ up ++ " Tool: " ++ t
  else if jsIncludes content "workflow:" || jsIncludes content "name:" then
    "BEAT " ++ up ++ " Workflow: " ++ metaName
  else
    "BEAT " ++ up ++ ": " ++ metaName

end BeatMethod

namespace BeatMethod

/-- `splitOnCharAux` never returns the empty list. -/
theorem splitOnCharAux_ne_nil (c : Char) :
    ∀ (l acc : Str), splitOnCharAux c l acc ≠ [] := by
  intro l
  induction l with
  | nil => intro acc; simp [splitOnCharAux]
  | cons x xs ih =>
    intro acc
    by_cases hx : x = c <;> simp [splitOnCharAux, hx, ih]

/-- Only the empty string splits into a single empty part. -/
theorem splitOnCharAux_single_empty (c : Char) :
    ∀ (l acc : Str), splitOnCharAux c l acc = [[]] → l = [] ∧ acc = [] := by
  intro l
  induction l with
  | nil =>
    intro acc h
    simp only [splitOnCharAux, List.cons.injEq] at h
    exact ⟨rfl, by simpa using congrArg List.reverse h.1⟩
  | cons x xs ih =>
    intro acc h
    by_cases hx : x = c
    · simp only [splitOnCharAux, hx, if_true] at h
      obtain ⟨-, h2⟩ := List.cons.inj h
      exact absurd h2 (splitOnCharAux_ne_nil c xs [])
    · simp only [splitOnCharAux, hx, if_false] at h
      obtain ⟨-, hacc⟩ := ih _ h
      exact absurd hacc (by simp)

/-- Claim C3 (partial): the title-cased fallback is non-empty on every
non-empty name. -/
theorem formatTitle_ne_empty {name : String} (h : name ≠ "") :
    formatTitle name ≠ "" := by
  intro habs
  have hdata : joinSpace ((splitOnChar '-' name.data).map capitalizeWord) = [] :=
    congrArg String.data habs
  have hne : name.data ≠ [] := by
    intro hd
    exact h (stringDataInj hd)
  rcases hsplit : splitOnChar '-' name.data with _ | ⟨p, rest⟩
  · exact splitOnCharAux_ne_nil '-' name.data [] hsplit
  · cases rest with
    | nil =>
      rw [hsplit] at hdata
      simp only [List.map_cons, List.map_nil, joinSpace] at hdata
      cases p with
      | nil => exact hne (splitOnCharAux_single_empty '-' name.data [] hsplit).1
      | cons a q => simp [capitalizeWord] at hdata
    | cons q t =>
      rw [hsplit] at hdata
      have : joinSpace (capitalizeWord p :: capitalizeWord q ::
          t.map capitalizeWord) =
          capitalizeWord p ++ ' ' :: joinSpace (capitalizeWord q ::
            t.map capitalizeWord) := rfl
      simp only [List.map_cons, this] at hdata
      exact absurd hdata (by simp)

/-- Claim C3: every adapter's title fallback is the title-cased transform
of the artifact name.  This fails for cursor: with content matching none
of the probes and name `dev-story`, the description embeds the raw name
`dev-story`, not `Dev Story` (which is what trae's `formatTitle`
yields). -/
theorem cursor_fallback_is_raw_name :
    cursorDescription "hello world" "core" "dev-story" =
      "BEAT CORE: dev-story" ∧
    formatTitle "dev-story" = "Dev Story" ∧
    cursorDescription "hello world" "core" "dev-story" ≠
      "BEAT CORE: Dev Story" := by
  refine ⟨by decide, by decide, by decide⟩

/-- Claim C3 (amended): the fallback chain is deterministic and total, and
produces a non-empty title for every non-empty name; trae's fallback is
the title-cased transform of the name (`dev-story` becomes `Dev Story`),
while cursor's `processContent` falls back to the raw artifact name. -/
theorem title_fallback_total (content name module : String)
    (hname : name ≠ "")
    (hnoName : scanCapture "name=\x22".data content.data = none)
    (hnoTags : jsIncludes content "<agent" = false ∧
      jsIncludes content "<task" = false ∧
      jsIncludes content "<tool" = false ∧
      (jsIncludes content "workflow:" || jsIncludes content "name:") = false) :
    traeTaskTitle content name = formatTitle name ∧
    formatTitle name ≠ "" ∧
    cursorDescription content module name =
      "BEAT " ++ jsToUpperCase module ++ ": " ++ name := by
  refine ⟨?_, formatTitle_ne_empty hname, ?_⟩
  · simp [traeTaskTitle, hnoName]
  · obtain ⟨h1, h2, h3, h4⟩ := hnoTags
    simp [cursorDescription, h1, h2, h3, h4]

/-- Witness for `title_fallback_total` at content matching no probe. -/
theorem title_fallback_total_witness :
    traeTaskTitle "hello world" "dev-story" = formatTitle "dev-story" := by
  exact (title_fallback_total "hello world" "dev-story" "core"
    (by decide) (by decide) ⟨by decide, by decide, by decide, by decide⟩).1

end BeatMethod

namespace BeatMethod

/-! ## Frontmatter stripping and rendering (C7)

All adapters share the first-match replacement of
`/^---\s*\n[\s\S]*?\n---\s*\n/` (cursor.js line 269, trae.js line 116,
qwen.js line 220, windsurf.js line 137).  The anchored `\s*\n` is matched
with full backtracking: every split of the whitespace run at one of its
newlines is a candidate, tried greedily (longest whitespace first), and the
lazy middle then finds the earliest terminator `\n---\s*\n`. -/

/-- All ways to match `\s*\n` at the start of `s`, returning the suffix
after the consumed newline; ordered greedily (most whitespace consumed
first). -/
def wsNlSplits : Str → List Str
  | [] => []
  | c :: rest =>
    if jsWs c then wsNlSplits rest ++ (if c = '\n' then [rest] else [])
    else []

/-- Find the earliest occurrence of the terminator `\n---\s*\n` in `s`;
returns the suffix after the match (its `\s*\n` taken greedily). -/
def findTerminator : Str → Option Str
  | [] => none
  | c :: rest =>
    match (if c = '\n' then
            match rest with
            | '-' :: '-' :: '-' :: r => (wsNlSplits r).head?
            | _ => none
          else none) with
    | some out => some out
    | none => findTerminator rest

/-- Try each candidate start (greedy first), looking for a terminator. -/
def tryStartSplits : List Str → Option Str
  | [] => none
  | r :: rs =>
    match findTerminator r with
    | some out => some out
    | none => tryStartSplits rs

/-- `content.replace(/^---\s*\n[\s\S]*?\n---\s*\n/, '')`: strip an
anchored frontmatter block when the regex matches, otherwise return the
content unchanged. -/
def stripFrontmatter (content : String) : String :=
  match content.data with
  | '-' :: '-' :: '-' :: r =>
    match tryStartSplits (wsNlSplits r) with
    | some out => strOfList out
    | none => content
  | _ => content

/-- The MDC header template of `CursorSetup.processContent` (cursor.js
lines 311-317); `globs` is the empty string in every branch. -/
def cursorMdcHeader (description : String) : String :=
  "---\ndescription: " ++ description ++
    "\nglobs: \nalwaysApply: false\n---\n\n"

/-- `CursorSetup.processContent` (cursor.js lines 263-321).  The base
class `_base-ide.js` is not part of the corpus; its output
`super.processContent(content, metadata)` enters here as the
`baseProcessed` input, which the method strips of frontmatter and prefixes
with the MDC header. -/
def cursorProcessContent (content baseProcessed module metaName : String) :
    String :=
  cursorMdcHeader (cursorDescription content module metaName) ++
    stripFrontmatter baseProcessed

/-- The destination path of a cursor task artifact (cursor.js line 96). -/
def cursorTaskTargetPath (beatRulesDir module metaName : String) : String :=
  beatRulesDir ++ "/" ++ module ++ "/tasks/" ++ metaName ++ ".mdc"

/-- `WindsurfSetup.createWorkflowContent` (windsurf.js lines 135-149):
strip the launcher's frontmatter and wrap in windsurf frontmatter. -/
def windsurfCreateWorkflowContent (name content : String) : String :=
  "---\ndescription: " ++ name ++ "\nauto_execution_mode: 3\n---\n\n" ++
    stripFrontmatter content

end BeatMethod

namespace BeatMethod

/-- The description branch structure of `CursorSetup.processContent`
(cursor.js lines 274-308) as an inference system: one rule per if-branch
and per probe outcome, with the chain's negative conditions explicit. -/
inductive CursorDescR (content module metaName : String) : String → Prop
  | agentTitle (t : Str) :
      jsIncludes content "<agent" = true →
      scanCapture "title=\x22".data content.data = some t →
      CursorDescR content module metaName
        ("BEAT " ++ jsToUpperCase module ++ " Agent: " ++ strOfList t)
  | agentName :
      jsIncludes content "<agent" = true →
      scanCapture "title=\x22".data content.data = none →
      CursorDescR content module metaName
        ("BEAT " ++ jsToUpperCase module ++ " Agent: " ++ metaName)
  | taskTitle (t : Str) :
      jsIncludes content "<agent" = false →
      jsIncludes content "<task" = true →
      scanCapture "name=\x22".data content.data = some t →
      CursorDescR content module metaName
        ("BEAT " ++ jsToUpperCase module ++ " Task: " ++ strOfList t)
  | taskName :
      jsIncludes content "<agent" = false →
      jsIncludes content "<task" = true →
      scanCapture "name=\x22".data content.data = none →
      CursorDescR content module metaName
        ("BEAT " ++ jsToUpperCase module ++ " Task: " ++ metaName)
  | toolTitle (t : Str) :
      jsIncludes content "<agent" = false →
      jsIncludes content "<task" = false →
      jsIncludes content "<tool" = true →
      scanCapture "name=\x22".data content.data = some t →
      CursorDescR content module metaName
        ("BEAT " ++ jsToUpperCase module ++ " Tool: " ++ strOfList t)
  | toolName :
      jsIncludes content "<agent" = false →
      jsIncludes content "<task" = false →
      jsIncludes content "<tool" = true →
      scanCapture "name=\x22".data content.data = none →
      CursorDescR content module metaName
        ("BEAT " ++ jsToUpperCase module ++ " Tool: " ++ metaName)
  | workflowDesc :
      jsIncludes content "<agent" = false →
      jsIncludes content "<task" = false →
      jsIncludes content "<tool" = false →
      (jsIncludes content "workflow:" || jsIncludes content "name:") = true →
      CursorDescR content module metaName
        ("BEAT " ++ jsToUpperCase module ++ " Workflow: " ++ metaName)
  | otherDesc :
      jsIncludes content "<agent" = false →
      jsIncludes content "<task" = false →
      jsIncludes content "<tool" = false →
      (jsIncludes content "workflow:" || jsIncludes content "name:") = false →
      CursorDescR content module metaName
        ("BEAT " ++ jsToUpperCase module ++ ": " ++ metaName)

/-- The cursor task-rendering step as a relation on (path, content)
outputs: the description is derived by `CursorDescR`, the file content is
the MDC header plus the stripped base-processed body, the path is the
nested task path. -/
inductive CursorTaskRenderR
    (beatRulesDir content baseProcessed module metaName : String) :
    String × String → Prop
  | mk (desc : String) :
      CursorDescR content module metaName desc →
      CursorTaskRenderR beatRulesDir content baseProcessed module metaName
        (cursorTaskTargetPath beatRulesDir module metaName,
         cursorMdcHeader desc ++ stripFrontmatter baseProcessed)

/-- The branch conditions of `CursorDescR` are mutually exclusive, so the
description is unique. -/
theorem cursorDescR_deterministic {content module metaName : String}
    {d1 d2 : String}
    (h1 : CursorDescR content module metaName d1)
    (h2 : CursorDescR content module metaName d2) : d1 = d2 := by
  cases h1 <;> cases h2 <;> simp_all

/-- The function `cursorDescription` realizes the relation (totality of
the embedded branch logic). -/
theorem cursorDescription_sound (content module metaName : String) :
    CursorDescR content module metaName
      (cursorDescription content module metaName) := by
  by_cases h1 : jsIncludes content "<agent"
  · rcases hs : scanCapture "title=\x22".data content.data with _ | t
    · have hC : CursorDescR content module metaName
          ("BEAT " ++ jsToUpperCase module ++ " Agent: " ++ metaName) :=
        CursorDescR.agentName h1 hs
      simpa [cursorDescription, h1, hs] using hC
    · have hC : CursorDescR content module metaName
          ("BEAT " ++ jsToUpperCase module ++ " Agent: " ++ strOfList t) :=
        CursorDescR.agentTitle t h1 hs
      simpa [cursorDescription, h1, hs] using hC
  · have h1f : jsIncludes content "<agent" = false := by simpa using h1
    by_cases h2 : jsIncludes content "<task"
    · rcases hs : scanCapture "name=\x22".data content.data with _ | t
      · have hC : CursorDescR content module metaName
            ("BEAT " ++ jsToUpperCase module ++ " Task: " ++ metaName) :=
          CursorDescR.taskName h1f h2 hs
        simpa [cursorDescription, h1f, h2, hs] using hC
      · have hC : CursorDescR content module metaName
            ("BEAT " ++ jsToUpperCase module ++ " Task: " ++ strOfList t) :=
          CursorDescR.taskTitle t h1f h2 hs
        simpa [cursorDescription, h1f, h2, hs] using hC
    · have h2f : jsIncludes content "<task" = false := by simpa using h2
      by_cases h3 : jsIncludes content "<tool"
      · rcases hs : scanCapture "name=\x22".data content.data with _ | t
        · have hC : CursorDescR content module metaName
              ("BEAT " ++ jsToUpperCase module ++ " Tool: " ++ metaName) :=
            CursorDescR.toolName h1f h2f h3 hs
          simpa [cursorDescription, h1f, h2f, h3, hs] using hC
        · have hC : CursorDescR content module metaName
              ("BEAT " ++ jsToUpperCase module ++ " Tool: " ++ strOfList t) :=
            CursorDescR.toolTitle t h1f h2f h3 hs
          simpa [cursorDescription, h1f, h2f, h3, hs] using hC
      · have h3f : jsIncludes content "<tool" = false := by simpa using h3
        by_cases h4 : (jsIncludes content "workflow:" ||
            jsIncludes content "name:") = true
        · have hC : CursorDescR content module metaName
              ("BEAT " ++ jsToUpperCase module ++ " Workflow: " ++ metaName) :=
            CursorDescR.workflowDesc h1f h2f h3f h4
          simpa [cursorDescription, h1f, h2f, h3f, h4] using hC
        · have h4f : (jsIncludes content "workflow:" ||
              jsIncludes content "name:") = false := by simpa using h4
          have hC : CursorDescR content module metaName
              ("BEAT " ++ jsToUpperCase module ++ ": " ++ metaName) :=
            CursorDescR.otherDesc h1f h2f h3f h4f
          simpa [cursorDescription, h1f, h2f, h3f, h4f] using hC

/-- Claim C7: rendering is deterministic — the cursor task-render relation
admits exactly one (path, content) output for given inputs, and windsurf's
workflow rendering yields byte-identical output on identical inputs. -/
theorem render_deterministic :
    (∀ (beatRulesDir content baseProcessed module metaName : String)
       (o1 o2 : String × String),
      CursorTaskRenderR beatRulesDir content baseProcessed module metaName o1 →
      CursorTaskRenderR beatRulesDir content baseProcessed module metaName o2 →
      o1 = o2) ∧
    (∀ n1 n2 c1 c2 : String, n1 = n2 → c1 = c2 →
      windsurfCreateWorkflowContent n1 c1 =
        windsurfCreateWorkflowContent n2 c2) := by
  constructor
  · intro beatRulesDir content baseProcessed module metaName o1 o2 h1 h2
    obtain ⟨d1, hd1⟩ := h1
    obtain ⟨d2, hd2⟩ := h2
    rw [cursorDescR_deterministic hd1 hd2]
  · intro n1 n2 c1 c2 hn hc
    rw [hn, hc]

/-- Witness for `render_deterministic`: two derivations at a concrete
artifact produce the same output. -/
theorem render_deterministic_witness :
    (cursorTaskTargetPath "rules/beat" "core" "dev",
      cursorMdcHeader "BEAT CORE: dev" ++ stripFrontmatter "body") =
    (cursorTaskTargetPath "rules/beat" "core" "dev",
      cursorMdcHeader "BEAT CORE: dev" ++ stripFrontmatter "body") := by
  have hdesc : CursorDescR "hello" "core" "dev" "BEAT CORE: dev" := by
    have hC : CursorDescR "hello" "core" "dev"
        ("BEAT " ++ jsToUpperCase "core" ++ ": " ++ "dev") :=
      CursorDescR.otherDesc (by decide) (by decide) (by decide) (by decide)
    simpa [jsToUpperCase, strOfList] using hC
  exact render_deterministic.1 "rules/beat" "hello" "body" "core" "dev" _ _
    (CursorTaskRenderR.mk _ hdesc) (CursorTaskRenderR.mk _ hdesc)

end BeatMethod
